import Mathlib

/-!
# Verification of `serverless-plugin-stage-reserved-concurrency`

Shallow embedding of the plugin's core logic (the batched implementation in
the main plugin class `StageBasedConcurrencyPlugin`, together with the
near-duplicate simpler variant in `src/index.ts` where the claims cite it).

Modelling conventions:
* JavaScript strings are Lean `String`s; `String.prototype.toLowerCase`,
  `startsWith` and `includes` are embedded as character-list operations on
  `String.data` (`Char.toLower` per character, list prefix, list infix).
* The mutable `functions` mapping (`Object.entries` iteration, keys unique,
  insertion order) is embedded as an association list `List (String × _)`.
* The remote AWS Lambda state reachable through `provider.request` is
  embedded as an association list from fully-qualified function name to a
  `RemoteFn` record; fallibility of the two remote operations used
  (`getFunctionConfiguration`, `deleteFunctionConcurrency`) is part of that
  record (`fetchFails`, `deleteFails`), so a run is deterministic for a
  fixed remote state.
* `async`/`await` with explicit `try/catch` becomes explicit state passing
  with `Except` results; `Promise.all` over one batch is modelled by
  processing the batch members in order (each member only reads/writes the
  remote entry of its own — unique — function name, and the aggregate
  counters are summed after the batch settles, so the interleaving order
  does not affect any modelled observable).
* Every emitted log line is recorded in a `List LogEntry` trace and every
  remote request in a `List ApiCall` trace; the wall-clock figures of
  `_measureExecutionTime` are not modelled (only its messages and its
  rethrow behaviour are).
-/

/-- Embedding of JavaScript `String.prototype.toLowerCase` (per-character
lowercasing; ASCII letters via `Char.toLower`, as used by the stage names). -/
def jsToLower (s : String) : String := ⟨s.data.map Char.toLower⟩

/-- Embedding of JavaScript `String.prototype.startsWith`: character-list
prefix test. -/
def strStartsWith (s pre : String) : Bool := pre.data.isPrefixOf s.data

/-- Helper for `strContains`: does `pat` occur as a contiguous run inside
`l`? -/
def listContainsAux (pat : List Char) : List Char → Bool
  | [] => pat.isEmpty
  | c :: rest => pat.isPrefixOf (c :: rest) || listContainsAux pat rest

/-- Embedding of JavaScript `String.prototype.includes`: substring test. -/
def strContains (s pat : String) : Bool := listContainsAux pat.data s.data

/-- Constant `static readonly DEV_STAGES = ['dev', 'development', 'feature']`. -/
def DEV_STAGES : List String := ["dev", "development", "feature"]

/-- Constant `static readonly WARMUP_FUNCTION_IDENTIFIER = 'warmUp'`. -/
def WARMUP_FUNCTION_IDENTIFIER : String := "warmUp"

/-- Constant `static readonly AWS_CONCURRENCY_BATCH_SIZE = 5`. -/
def AWS_CONCURRENCY_BATCH_SIZE : Nat := 5

/-- Method `_isDevelopmentStage` of the main plugin class:
`DEV_STAGES.includes(lowerStage) || lowerStage.startsWith('feature-')`. -/
def _isDevelopmentStage (stage : String) : Bool :=
  let lowerStage := jsToLower stage
  DEV_STAGES.contains lowerStage || strStartsWith lowerStage ("feature-")

/-- Method `_isDevelopmentStage` of the simpler variant in `src/index.ts`: the same
test spelled as three equalities plus the prefix test. -/
def indexTs_isDevelopmentStage (stage : String) : Bool :=
  let lowerStage := jsToLower stage
  lowerStage == "dev" || lowerStage == "development" || lowerStage == "feature" ||
    strStartsWith lowerStage ("feature-")

/-- Log levels: `log.info` vs `log.error` of the `Logger` interface. -/
inductive LogLevel where
  | info
  | error
deriving DecidableEq, Repr

/-- One emitted log line. -/
structure LogEntry where
  level : LogLevel
  message : String
deriving DecidableEq, Repr

def logInfo (message : String) : LogEntry := ⟨LogLevel.info, message⟩

def logError (message : String) : LogEntry := ⟨LogLevel.error, message⟩

/-- Type `interface FunctionConfig { reservedConcurrency?: number; [key: string]: any }`.
The optional field is `Option Int`; all other (provider-specific, opaque)
fields are the pass-through component `extra : α`. -/
structure FunctionConfig (α : Type) where
  reservedConcurrency : Option Int
  extra : α
deriving DecidableEq, Repr

/-- Type `interface ProcessingResult { modifiedCount: number; errorCount: number }`. -/
structure ProcessingResult where
  modifiedCount : Nat
  errorCount : Nat
deriving DecidableEq, Repr

/-- Method `_removeConcurrencyFromFunction`: if `config.reservedConcurrency !== undefined`
(presence, not truthiness), log, `delete config.reservedConcurrency` and
return `true`; otherwise return `false`. The in-place mutation is embedded by
returning the updated config. -/
def _removeConcurrencyFromFunction {α : Type} (functionName : String)
    (config : FunctionConfig α) : FunctionConfig α × Bool × List LogEntry :=
  if config.reservedConcurrency ≠ none then
    ({ config with reservedConcurrency := none }, true,
      [logInfo ("Removing reserved concurrency from Serverless config for function: "
        ++ functionName)])
  else
    (config, false, [])

/-- Method `_processServerlessConfigFunctions`: `Object.entries(functions).forEach`,
incrementing `modifiedCount` for each entry where removal happened; returns
`{ modifiedCount, errorCount: 0 }`. The mutated mapping is returned. -/
def _processServerlessConfigFunctions {α : Type} :
    List (String × FunctionConfig α) →
      List (String × FunctionConfig α) × ProcessingResult × List LogEntry
  | [] => ([], ⟨0, 0⟩, [])
  | (functionName, functionConfig) :: rest =>
    let (config', modified, logs) := _removeConcurrencyFromFunction functionName functionConfig
    let (rest', result, restLogs) := _processServerlessConfigFunctions rest
    ((functionName, config') :: rest',
      ⟨(if modified then 1 else 0) + result.modifiedCount, 0⟩, logs ++ restLogs)

/-- Live remote (AWS-side) configuration of one Lambda function, together
with the failure behaviour of the two remote operations the plugin issues
against it. A function absent from the remote state makes its
`getFunctionConfiguration` fail (remote "not found"). -/
structure RemoteFn where
  reservedConcurrentExecutions : Option Nat
  fetchFails : Bool
  deleteFails : Bool
deriving DecidableEq, Repr

/-- Remote Lambda state: association list from fully-qualified function name
to its live configuration. -/
abbrev Remote := List (String × RemoteFn)

/-- First-match lookup in the remote state (the resolution the remote API
performs on `FunctionName`). -/
def lookupFn : Remote → String → Option RemoteFn
  | [], _ => none
  | (k, v) :: rest, name => if k = name then some v else lookupFn rest name

/-- Effect of a successful `deleteFunctionConcurrency` call on the remote
state: the named function's reserved concurrency becomes absent; nothing
else changes. -/
def deleteConcurrency : Remote → String → Remote
  | [], _ => []
  | (k, v) :: rest, name =>
    (k, if k = name then { v with reservedConcurrentExecutions := none } else v)
      :: deleteConcurrency rest name

/-- The two remote API operations the plugin issues (`provider.request`
targets), recorded as a trace. -/
inductive ApiCall where
  | getFunctionConfiguration (functionName : String)
  | deleteFunctionConcurrency (functionName : String)
deriving DecidableEq, Repr

/-- Descriptor metadata used by `_getFunctionName`: `service.service` and
`service.provider.stage`. -/
structure Ctx where
  service : String
  stage : String
deriving DecidableEq, Repr

/-- Method `_getFunctionName`: `` `${service}-${stage}-${functionName}` ``. -/
def _getFunctionName (ctx : Ctx) (functionName : String) : String :=
  ctx.service ++ "-" ++ ctx.stage ++ "-" ++ functionName

/-- Method `_shouldSkipFunction`: `awsFunctionName.includes(WARMUP_FUNCTION_IDENTIFIER)`. -/
def _shouldSkipFunction (awsFunctionName : String) : Bool :=
  strContains awsFunctionName WARMUP_FUNCTION_IDENTIFIER

/-- Outcome of a fallible remote step: an `Except` result plus the updated
remote state and the traces of issued API calls and emitted logs. -/
structure CheckOut where
  result : Except String Bool
  remote : Remote
  calls : List ApiCall
  logs : List LogEntry

/-- Method `_checkAndRemoveReservedConcurrency`: fetch the configuration
(`getFunctionConfiguration`); if `ReservedConcurrentExecutions !== undefined`
issue `deleteFunctionConcurrency` and return `true`, else return `false`.
A failing fetch or delete is an `Except.error` (to be caught by the caller);
a failed call leaves the remote state unchanged. -/
def _checkAndRemoveReservedConcurrency (awsFunctionName : String) (st : Remote) : CheckOut :=
  match lookupFn st awsFunctionName with
  | none =>
    { result := Except.error ("Function not found: " ++ awsFunctionName),
      remote := st,
      calls := [ApiCall.getFunctionConfiguration awsFunctionName],
      logs := [] }
  | some fn =>
    if fn.fetchFails then
      { result := Except.error ("getFunctionConfiguration failed for: " ++ awsFunctionName),
        remote := st,
        calls := [ApiCall.getFunctionConfiguration awsFunctionName],
        logs := [] }
    else
      match fn.reservedConcurrentExecutions with
      | some _ =>
        if fn.deleteFails then
          { result := Except.error ("deleteFunctionConcurrency failed for: " ++ awsFunctionName),
            remote := st,
            calls := [ApiCall.getFunctionConfiguration awsFunctionName,
              ApiCall.deleteFunctionConcurrency awsFunctionName],
            logs := [logInfo ("Removing reserved concurrency from AWS for function: "
              ++ awsFunctionName)] }
        else
          { result := Except.ok true,
            remote := deleteConcurrency st awsFunctionName,
            calls := [ApiCall.getFunctionConfiguration awsFunctionName,
              ApiCall.deleteFunctionConcurrency awsFunctionName],
            logs := [logInfo ("Removing reserved concurrency from AWS for function: "
                ++ awsFunctionName),
              logInfo ("Successfully removed reserved concurrency from AWS for function: "
                ++ awsFunctionName)] }
      | none =>
        { result := Except.ok false,
          remote := st,
          calls := [ApiCall.getFunctionConfiguration awsFunctionName],
          logs := [] }

/-- Outcome of an infallible (error-catching) step of the reconciliation. -/
structure AwsStepOut where
  result : ProcessingResult
  remote : Remote
  calls : List ApiCall
  logs : List LogEntry

/-- Method `_processAwsFunction`: resolve the name, skip warm-up functions, else run
`_checkAndRemoveReservedConcurrency`; any thrown error is caught, logged with
the logical name and message, and turned into `errorCount = 1`. -/
def _processAwsFunction (ctx : Ctx) (functionName : String) (st : Remote) : AwsStepOut :=
  let awsFunctionName := _getFunctionName ctx functionName
  if _shouldSkipFunction awsFunctionName then
    { result := ⟨0, 0⟩, remote := st, calls := [],
      logs := [logInfo ("Skipping warmUp function: " ++ awsFunctionName)] }
  else
    let out := _checkAndRemoveReservedConcurrency awsFunctionName st
    match out.result with
    | Except.ok hasReservedConcurrency =>
      { result := ⟨if hasReservedConcurrency then 1 else 0, 0⟩,
        remote := out.remote, calls := out.calls, logs := out.logs }
    | Except.error msg =>
      { result := ⟨0, 1⟩, remote := out.remote, calls := out.calls,
        logs := out.logs ++
          [logError ("Error removing reserved concurrency from AWS for function "
            ++ functionName ++ ": " ++ msg)] }

/-- One batch: `Promise.all(batch.map(([functionName, _]) =>
this._processAwsFunction(functionName)))` followed by summing the settled
per-function results. Each batch member touches only the remote entry of its
own (unique) name, so the fan-out is modelled by processing members in order;
the entries' config components are unused by the loop, so a batch is its list
of logical names. -/
def _processBatch (ctx : Ctx) : List String → Remote → AwsStepOut
  | [], st => { result := ⟨0, 0⟩, remote := st, calls := [], logs := [] }
  | functionName :: rest, st =>
    let o := _processAwsFunction ctx functionName st
    let os := _processBatch ctx rest o.remote
    { result := ⟨o.result.modifiedCount + os.result.modifiedCount,
        o.result.errorCount + os.result.errorCount⟩,
      remote := os.remote, calls := o.calls ++ os.calls, logs := o.logs ++ os.logs }

/-- Method `_processAwsFunctionsInBatches`: `for (let i = 0; i < n; i += batchSize)`
over slices of size `AWS_CONCURRENCY_BATCH_SIZE = 5`, accumulating the
settled batch results; batches run strictly in sequence (note
`(x :: xs).drop AWS_CONCURRENCY_BATCH_SIZE = xs.drop (AWS_CONCURRENCY_BATCH_SIZE - 1)`). -/
def _processAwsFunctionsInBatches (ctx : Ctx) (functionNames : List String)
    (st : Remote) : AwsStepOut :=
  match functionNames with
  | [] => { result := ⟨0, 0⟩, remote := st, calls := [], logs := [] }
  | x :: xs =>
    let b := _processBatch ctx ((x :: xs).take AWS_CONCURRENCY_BATCH_SIZE) st
    let rest := _processAwsFunctionsInBatches ctx
      (xs.drop (AWS_CONCURRENCY_BATCH_SIZE - 1)) b.remote
    { result := ⟨b.result.modifiedCount + rest.result.modifiedCount,
        b.result.errorCount + rest.result.errorCount⟩,
      remote := rest.remote, calls := b.calls ++ rest.calls, logs := b.logs ++ rest.logs }
termination_by functionNames.length
decreasing_by simp [List.length_drop]; omega

/-- The consecutive slices the batching loop walks. -/
def chunksOf {α : Type} (k : Nat) : List α → List (List α)
  | [] => []
  | x :: xs => (x :: xs).take k :: chunksOf k (xs.drop (k - 1))
termination_by l => l.length
decreasing_by simp [List.length_drop]; omega

/-- Reference run: each name processed once, in order, collecting the
per-function results and threading the remote state. -/
def runEach (ctx : Ctx) : List String → Remote → List ProcessingResult × Remote
  | [], st => ([], st)
  | functionName :: rest, st =>
    let o := _processAwsFunction ctx functionName st
    let (rs, st') := runEach ctx rest o.remote
    (o.result :: rs, st')

/-- Sequential fold of settled batches: each batch starts from the remote
state the previous batch left behind. -/
def foldBatches (ctx : Ctx) : List (List String) → Remote → AwsStepOut
  | [], st => { result := ⟨0, 0⟩, remote := st, calls := [], logs := [] }
  | batch :: rest, st =>
    let b := _processBatch ctx batch st
    let os := foldBatches ctx rest b.remote
    { result := ⟨b.result.modifiedCount + os.result.modifiedCount,
        b.result.errorCount + os.result.errorCount⟩,
      remote := os.remote, calls := b.calls ++ os.calls, logs := b.logs ++ os.logs }

/-- A remote entry is clean for a name when no successful delete could be
triggered there: any found entry whose fetch and delete would succeed
carries no reserved concurrency. -/
def cleanEntry (st : Remote) (awsName : String) : Prop :=
  ∀ fn, lookupFn st awsName = some fn → fn.fetchFails = false → fn.deleteFails = false →
    fn.reservedConcurrentExecutions = none

/-- A logical name is clean for a run when it is either skipped as a warm-up
function or its remote entry is clean. -/
def cleanFor (ctx : Ctx) (st : Remote) (functionName : String) : Prop :=
  _shouldSkipFunction (_getFunctionName ctx functionName) = true
  ∨ cleanEntry st (_getFunctionName ctx functionName)

/-- Type `interface ServerlessOptions { function?: string }`: the optional target
function name of a single-function deploy. -/
structure ServerlessOptions where
  function : Option String
deriving DecidableEq, Repr

/-- Method `_validateFunctionName`: `if (!functionName)` — falsy, i.e. absent or the
empty string — log the error `'No function specified'` and report invalid. -/
def _validateFunctionName (functionName : Option String) : Bool × List LogEntry :=
  match functionName with
  | none => (false, [logError ("No function specified")])
  | some s => if s = ("") then (false, [logError ("No function specified")]) else (true, [])

/-- Method `_processSingleAwsFunction`: the source duplicates the body of
`_processAwsFunction` verbatim for the single-function path. -/
def _processSingleAwsFunction (ctx : Ctx) (functionName : String) (st : Remote) : AwsStepOut :=
  let awsFunctionName := _getFunctionName ctx functionName
  if _shouldSkipFunction awsFunctionName then
    { result := ⟨0, 0⟩, remote := st, calls := [],
      logs := [logInfo ("Skipping warmUp function: " ++ awsFunctionName)] }
  else
    let out := _checkAndRemoveReservedConcurrency awsFunctionName st
    match out.result with
    | Except.ok hasReservedConcurrency =>
      { result := ⟨if hasReservedConcurrency then 1 else 0, 0⟩,
        remote := out.remote, calls := out.calls, logs := out.logs }
    | Except.error msg =>
      { result := ⟨0, 1⟩, remote := out.remote, calls := out.calls,
        logs := out.logs ++
          [logError ("Error removing reserved concurrency from AWS for function "
            ++ functionName ++ ": " ++ msg)] }

/-- Method `_logSingleFunctionResult`: success line when something was modified,
"no reserved concurrency found" when nothing was modified and nothing
errored, nothing otherwise. -/
def _logSingleFunctionResult (ctx : Ctx) (functionName : String)
    (result : ProcessingResult) : List LogEntry :=
  let awsFunctionName := _getFunctionName ctx functionName
  if result.modifiedCount > 0 then
    [logInfo ("Successfully removed reserved concurrency from AWS for function: "
      ++ awsFunctionName)]
  else if result.errorCount = 0 then
    [logInfo ("No reserved concurrency found for function: " ++ awsFunctionName)]
  else []

/-- The logging skeleton of `_measureExecutionTime`: a start line, the
wrapped operation's own logs, then a finish line on success or a failure
line (followed by a rethrow) on error; the wall-clock figures are not
modelled. -/
def measureExecutionTimeLogs (operation : String) (result : Except String Unit)
    (innerLogs : List LogEntry) : List LogEntry :=
  logInfo ("Starting: " ++ operation) :: innerLogs ++
    (match result with
     | Except.ok _ => [logInfo ("Finished: " ++ operation)]
     | Except.error msg => [logError ("Failed: " ++ operation ++ " - " ++ msg)])

/-- Outcome of one registered lifecycle hook: whether its promise resolved
(`Except.ok`) or rejected, plus remote state, API-call and log traces. -/
structure HookOut where
  result : Except String Unit
  remote : Remote
  calls : List ApiCall
  logs : List LogEntry

/-- Method `_removeReservedConcurrencyFromAwsForFunction`: wrapped in
`_measureExecutionTime`; validates `options.function` (returning early on
failure), otherwise processes the single function — whose errors are caught
inside — and logs the single-function summary. The wrapped operation never
throws, so the hook always resolves. -/
def _removeReservedConcurrencyFromAwsForFunction (ctx : Ctx)
    (options : ServerlessOptions) (st : Remote) : HookOut :=
  let operation := "Remove reserved concurrency from AWS for single function"
  let v := _validateFunctionName options.function
  match options.function, v.1 with
  | some functionName, true =>
    let o := _processSingleAwsFunction ctx functionName st
    { result := Except.ok (), remote := o.remote, calls := o.calls,
      logs := measureExecutionTimeLogs operation (Except.ok ())
        (v.2 ++ o.logs ++ _logSingleFunctionResult ctx functionName o.result) }
  | _, _ =>
    { result := Except.ok (), remote := st, calls := [],
      logs := measureExecutionTimeLogs operation (Except.ok ()) v.2 }

/-- The three hook implementations the constructor can bind. -/
inductive HookAction where
  | removeReservedConcurrencyFromSLS
  | removeReservedConcurrencyFromAws
  | removeReservedConcurrencyFromAwsForFunction
deriving DecidableEq, Repr

/-- The constructor of the main plugin class: read the stage once, classify
it once, and set `this.hooks` to the six extension-point bindings when
development-like, or to the empty mapping otherwise. -/
def constructorHooks (stage : String) : List (String × HookAction) :=
  if _isDevelopmentStage stage then
    [("before:deploy:deploy", HookAction.removeReservedConcurrencyFromSLS),
     ("before:deploy:function:deploy", HookAction.removeReservedConcurrencyFromSLS),
     ("before:package:createDeploymentArtifacts", HookAction.removeReservedConcurrencyFromSLS),
     ("before:aws:deploy:deploy:createStack", HookAction.removeReservedConcurrencyFromSLS),
     ("after:aws:deploy:deploy:updateStack", HookAction.removeReservedConcurrencyFromAws),
     ("after:deploy:function:deploy", HookAction.removeReservedConcurrencyFromAwsForFunction)]
  else []

/-- The constructor of the `src/index.ts` variant: three extension-point
bindings when development-like, none otherwise. -/
def indexTs_constructorHooks (stage : String) : List (String × HookAction) :=
  if indexTs_isDevelopmentStage stage then
    [("before:package:initialize", HookAction.removeReservedConcurrencyFromSLS),
     ("after:deploy:deploy", HookAction.removeReservedConcurrencyFromAws),
     ("after:deploy:function:deploy", HookAction.removeReservedConcurrencyFromAws)]
  else []

theorem listContainsAux_iff_infix (pat l : List Char) :
    listContainsAux pat l = true ↔ pat <:+: l := by
  induction l with
  | nil =>
    simp [listContainsAux, List.isEmpty_iff, List.infix_nil]
  | cons c rest ih =>
    simp only [listContainsAux, Bool.or_eq_true, List.isPrefixOf_iff_prefix, ih,
      List.infix_cons_iff]

theorem strContains_iff_infix (s pat : String) :
    strContains s pat = true ↔ pat.data <:+: s.data := by
  simpa [strContains] using listContainsAux_iff_infix pat.data s.data

/-- The two implementations of the stage classifier agree on every stage. -/
theorem isDevelopmentStage_agree (stage : String) :
    _isDevelopmentStage stage = indexTs_isDevelopmentStage stage := by
  rw [Bool.eq_iff_iff]
  simp [_isDevelopmentStage, indexTs_isDevelopmentStage, DEV_STAGES, or_assoc]

/-- C1: For every stage string, `_isDevelopmentStage` returns true iff the
lower-cased stage equals "dev", "development" or "feature", or the
lower-cased stage starts with "feature-"; it is a total Lean function, hence
pure and total over all strings, and the two implementations of the
classifier (main class and `src/index.ts` variant) agree. -/
theorem stage_classifier_spec (stage : String) :
    (_isDevelopmentStage stage = true ↔
      (jsToLower stage = "dev" ∨ jsToLower stage = "development" ∨
        jsToLower stage = "feature" ∨ "feature-".data <+: (jsToLower stage).data))
    ∧ _isDevelopmentStage stage = indexTs_isDevelopmentStage stage := by
  constructor
  · simp [_isDevelopmentStage, DEV_STAGES, strStartsWith,
      List.isPrefixOf_iff_prefix, or_assoc]
  · exact isDevelopmentStage_agree stage

example : _isDevelopmentStage ("Feature-XYZ") = true := by decide

example : _isDevelopmentStage ("production") = false := by decide

example : _isDevelopmentStage ("DEV") = true := by decide

/-- The mutated mapping is exactly the input mapping with every
`reservedConcurrency` field set to absent; keys, order and all other fields
are preserved (structure eta: an entry that already lacked the field is
returned unchanged). -/
theorem processSLS_map {α : Type} (functions : List (String × FunctionConfig α)) :
    (_processServerlessConfigFunctions functions).1 =
      functions.map (fun e => (e.1, { e.2 with reservedConcurrency := none })) := by
  induction functions with
  | nil => rfl
  | cons e rest ih =>
    obtain ⟨functionName, rc, extra⟩ := e
    simp only [_processServerlessConfigFunctions, _removeConcurrencyFromFunction, List.map_cons]
    cases rc with
    | none => simp [ih]
    | some v => simp [ih]

/-- Field `modifiedCount` counts exactly the entries whose `reservedConcurrency`
field is present, and `errorCount` is always `0`. -/
theorem processSLS_count {α : Type} (functions : List (String × FunctionConfig α)) :
    (_processServerlessConfigFunctions functions).2.1 =
      ⟨functions.countP (fun e => e.2.reservedConcurrency ≠ none), 0⟩ := by
  induction functions with
  | nil => rfl
  | cons e rest ih =>
    obtain ⟨functionName, rc, extra⟩ := e
    simp only [_processServerlessConfigFunctions, _removeConcurrencyFromFunction]
    cases rc with
    | none => simp [ih, List.countP_cons]
    | some v => simp [ih, List.countP_cons, Nat.add_comm]

/-- C4: descriptor mutation removes the `reservedConcurrency` field from
exactly those entries where it is present — presence, not truthiness, so
`some 0` is removed too — reports `modifiedCount` equal to the number of such
entries (`errorCount = 0`), and leaves entries without the field untouched. -/
theorem descriptor_mutation_presence_count {α : Type}
    (functions : List (String × FunctionConfig α)) :
    (_processServerlessConfigFunctions functions).2.1 =
        ⟨functions.countP (fun e => e.2.reservedConcurrency ≠ none), 0⟩
    ∧ (_processServerlessConfigFunctions functions).1 =
        functions.map (fun e =>
          if e.2.reservedConcurrency = none then e
          else (e.1, { e.2 with reservedConcurrency := none })) := by
  refine ⟨processSLS_count functions, ?_⟩
  rw [processSLS_map]
  refine List.map_congr_left ?_
  intro e _
  obtain ⟨functionName, rc, extra⟩ := e
  cases rc with
  | none => rfl
  | some v => simp

/-- The spec's worked example: `{a: {reservedConcurrency: 5}, b: {},
c: {reservedConcurrency: 0}}` yields `modifiedCount = 2` and `b` untouched. -/
example :
    (_processServerlessConfigFunctions
      [("a", ⟨some 5, ()⟩), ("b", ⟨none, ()⟩), ("c", ⟨some 0, ()⟩)]).2.1.modifiedCount = 2
    ∧ (_processServerlessConfigFunctions
      [("a", ⟨some 5, ()⟩), ("b", (⟨none, ()⟩ : FunctionConfig Unit)), ("c", ⟨some 0, ()⟩)]).1
        = [("a", ⟨none, ()⟩), ("b", ⟨none, ()⟩), ("c", ⟨none, ()⟩)] := by
  constructor <;> rfl

/-- C9: descriptor mutation is a pure frame change on the
`reservedConcurrency` field: the mapping keeps the same length and the same
keys in the same order (no entry created or destroyed), and the opaque
pass-through component (all other fields, provisioned-concurrency settings
included) of every entry is preserved verbatim. -/
theorem descriptor_mutation_frame {α : Type}
    (functions : List (String × FunctionConfig α)) :
    (_processServerlessConfigFunctions functions).1.length = functions.length
    ∧ (_processServerlessConfigFunctions functions).1.map Prod.fst
        = functions.map Prod.fst
    ∧ (_processServerlessConfigFunctions functions).1.map (fun e => e.2.extra)
        = functions.map (fun e => e.2.extra)
    ∧ (_processServerlessConfigFunctions functions).1.map (fun e => e.2.reservedConcurrency)
        = functions.map (fun _ => (none : Option Int)) := by
  rw [processSLS_map]
  refine ⟨by simp, by simp, by simp, by simp [Function.comp_def]⟩

theorem runEach_length (ctx : Ctx) (names : List String) (st : Remote) :
    (runEach ctx names st).1.length = names.length := by
  induction names generalizing st with
  | nil => rfl
  | cons n rest ih => simp [runEach, ih]

theorem runEach_append (ctx : Ctx) (l₁ l₂ : List String) (st : Remote) :
    runEach ctx (l₁ ++ l₂) st =
      ((runEach ctx l₁ st).1 ++ (runEach ctx l₂ (runEach ctx l₁ st).2).1,
        (runEach ctx l₂ (runEach ctx l₁ st).2).2) := by
  induction l₁ generalizing st with
  | nil => rfl
  | cons n rest ih => simp [runEach, ih]

/-- A batch's settled aggregate is the sum of its members' individual
results, its final remote state the threaded one. -/
theorem processBatch_eq_runEach (ctx : Ctx) (names : List String) (st : Remote) :
    (_processBatch ctx names st).result.modifiedCount
        = ((runEach ctx names st).1.map (fun r => r.modifiedCount)).sum
    ∧ (_processBatch ctx names st).result.errorCount
        = ((runEach ctx names st).1.map (fun r => r.errorCount)).sum
    ∧ (_processBatch ctx names st).remote = (runEach ctx names st).2 := by
  induction names generalizing st with
  | nil => exact ⟨rfl, rfl, rfl⟩
  | cons n rest ih =>
    obtain ⟨ihm, ihe, ihs⟩ := ih (_processAwsFunction ctx n st).remote
    exact ⟨by simp [_processBatch, runEach, ihm], by simp [_processBatch, runEach, ihe],
      by simp [_processBatch, runEach, ihs]⟩

/-- The batched loop's aggregate equals the per-name reference run: every
name contributes, across batch boundaries, exactly its individual result. -/
theorem processBatches_eq_runEach (ctx : Ctx) (names : List String) (st : Remote) :
    (_processAwsFunctionsInBatches ctx names st).result.modifiedCount
        = ((runEach ctx names st).1.map (fun r => r.modifiedCount)).sum
    ∧ (_processAwsFunctionsInBatches ctx names st).result.errorCount
        = ((runEach ctx names st).1.map (fun r => r.errorCount)).sum
    ∧ (_processAwsFunctionsInBatches ctx names st).remote = (runEach ctx names st).2 := by
  induction names, st using _processAwsFunctionsInBatches.induct ctx with
  | case1 st => refine ⟨?_, ?_, ?_⟩ <;> simp [_processAwsFunctionsInBatches, runEach]
  | case2 st x xs b ih =>
    unfold b at ih
    obtain ⟨bm, be, bs⟩ :=
      processBatch_eq_runEach ctx ((x :: xs).take AWS_CONCURRENCY_BATCH_SIZE) st
    obtain ⟨im, ie, is'⟩ := ih
    have hsplit : (x :: xs).take AWS_CONCURRENCY_BATCH_SIZE
        ++ xs.drop (AWS_CONCURRENCY_BATCH_SIZE - 1) = x :: xs := by
      have h5 := List.take_append_drop 5 (x :: xs)
      simp only [AWS_CONCURRENCY_BATCH_SIZE, List.drop_succ_cons] at h5 ⊢
      exact h5
    have key := runEach_append ctx ((x :: xs).take AWS_CONCURRENCY_BATCH_SIZE)
      (xs.drop (AWS_CONCURRENCY_BATCH_SIZE - 1)) st
    rw [hsplit] at key
    rw [bs] at im ie is'
    refine ⟨?_, ?_, ?_⟩ <;>
      simp only [_processAwsFunctionsInBatches] <;>
      rw [key] <;>
      simp [bm, be, bs, im, ie, is']

/-- Each per-function step settles as exactly one of: modified `⟨1, 0⟩`,
errored `⟨0, 1⟩`, or neither (skipped or already clean) `⟨0, 0⟩`. -/
theorem processAwsFunction_trichotomy (ctx : Ctx) (functionName : String) (st : Remote) :
    (_processAwsFunction ctx functionName st).result = ⟨1, 0⟩
    ∨ (_processAwsFunction ctx functionName st).result = ⟨0, 1⟩
    ∨ (_processAwsFunction ctx functionName st).result = ⟨0, 0⟩ := by
  by_cases hskip : _shouldSkipFunction (_getFunctionName ctx functionName) = true
  · exact Or.inr (Or.inr (by simp [_processAwsFunction, hskip]))
  · rcases hres : (_checkAndRemoveReservedConcurrency (_getFunctionName ctx functionName) st).result
      with msg | b
    · exact Or.inr (Or.inl (by simp [_processAwsFunction, hskip, hres]))
    · cases b
      · exact Or.inr (Or.inr (by simp [_processAwsFunction, hskip, hres]))
      · exact Or.inl (by simp [_processAwsFunction, hskip, hres])

/-- A failing per-function step leaves the remote state unchanged and the
step never aborts: its settled result is `⟨0, 1⟩`. -/
theorem processAwsFunction_error_isolated (ctx : Ctx) (functionName : String) (st : Remote)
    (msg : String)
    (h : (_checkAndRemoveReservedConcurrency (_getFunctionName ctx functionName) st).result
      = Except.error msg)
    (hskip : _shouldSkipFunction (_getFunctionName ctx functionName) = false) :
    (_processAwsFunction ctx functionName st).result = ⟨0, 1⟩ := by
  simp [_processAwsFunction, hskip, h]

theorem take_batch_append_drop {α : Type} (x : α) (xs : List α) :
    (x :: xs).take AWS_CONCURRENCY_BATCH_SIZE
      ++ xs.drop (AWS_CONCURRENCY_BATCH_SIZE - 1) = x :: xs := by
  have h5 := List.take_append_drop 5 (x :: xs)
  simp only [AWS_CONCURRENCY_BATCH_SIZE, List.drop_succ_cons] at h5 ⊢
  exact h5

/-- The batching loop is exactly the sequential fold of the consecutive
slices of size `AWS_CONCURRENCY_BATCH_SIZE`. -/
theorem processBatches_eq_foldBatches (ctx : Ctx) (names : List String) (st : Remote) :
    _processAwsFunctionsInBatches ctx names st
      = foldBatches ctx (chunksOf AWS_CONCURRENCY_BATCH_SIZE names) st := by
  induction names, st using _processAwsFunctionsInBatches.induct ctx with
  | case1 st => simp [_processAwsFunctionsInBatches, chunksOf, foldBatches]
  | case2 st x xs b ih =>
    unfold b at ih
    rw [_processAwsFunctionsInBatches, chunksOf]
    simp only [foldBatches, ih]

/-- The consecutive slices reassemble to the whole input. -/
theorem chunksOf_join (names : List String) :
    (chunksOf AWS_CONCURRENCY_BATCH_SIZE names).flatten = names := by
  induction names using chunksOf.induct AWS_CONCURRENCY_BATCH_SIZE with
  | case1 => simp [chunksOf]
  | case2 x xs ih =>
    rw [chunksOf]
    simp only [List.flatten_cons, ih]
    exact take_batch_append_drop x xs

/-- No slice exceeds the batch size. -/
theorem chunksOf_length_le (names : List String) :
    ∀ c ∈ chunksOf AWS_CONCURRENCY_BATCH_SIZE names, c.length ≤ AWS_CONCURRENCY_BATCH_SIZE := by
  induction names using chunksOf.induct AWS_CONCURRENCY_BATCH_SIZE with
  | case1 => intro c hc; simp [chunksOf] at hc
  | case2 x xs ih =>
    intro c hc
    rw [chunksOf] at hc
    rcases List.mem_cons.mp hc with h | h
    · subst h; exact List.length_take_le _ _
    · exact ih c h

theorem chunksOf_of_append (l₁ l₂ : List String) (h₁ : l₁.length = 5)
    (h₂ : 0 < l₂.length) (h₃ : l₂.length ≤ 5) :
    chunksOf AWS_CONCURRENCY_BATCH_SIZE (l₁ ++ l₂) = [l₁, l₂] := by
  rcases l₁ with _ | ⟨a, l₁'⟩
  · simp at h₁
  · have h₁' : l₁'.length = 4 := by simpa using h₁
    rcases l₂ with _ | ⟨b, l₂'⟩
    · simp at h₂
    · have h₂' : l₂'.length ≤ 4 := by simpa using h₃
      rw [List.cons_append, chunksOf]
      have htake : (a :: (l₁' ++ b :: l₂')).take AWS_CONCURRENCY_BATCH_SIZE = a :: l₁' := by
        simp only [AWS_CONCURRENCY_BATCH_SIZE, List.take_succ_cons]
        rw [List.take_left' h₁']
      have hdrop : (l₁' ++ b :: l₂').drop (AWS_CONCURRENCY_BATCH_SIZE - 1) = b :: l₂' := by
        simp only [AWS_CONCURRENCY_BATCH_SIZE]
        exact List.drop_left' h₁'
      rw [htake, hdrop, chunksOf]
      have htake₂ : (b :: l₂').take AWS_CONCURRENCY_BATCH_SIZE = b :: l₂' := by
        refine List.take_of_length_le ?_
        simpa [AWS_CONCURRENCY_BATCH_SIZE] using h₃
      have hdrop₂ : l₂'.drop (AWS_CONCURRENCY_BATCH_SIZE - 1) = [] := by
        refine List.drop_eq_nil_of_le ?_
        simpa [AWS_CONCURRENCY_BATCH_SIZE] using h₂'
      rw [htake₂, hdrop₂, chunksOf]

/-- Seven names are walked as one batch of five then one of two. -/
theorem chunksOf_seven (names : List String) (h7 : names.length = 7) :
    (chunksOf AWS_CONCURRENCY_BATCH_SIZE names).map List.length = [5, 2] := by
  have hsplit := List.take_append_drop 5 names
  have htake : (names.take 5).length = 5 := by simp [h7]
  have hdrop : (names.drop 5).length = 2 := by simp [h7]
  rw [← hsplit, chunksOf_of_append _ _ htake (by omega) (by omega)]
  simp [htake, hdrop]

/-- C2: the bulk reconciliation walks the logical names in consecutive
batches of fixed size 5 (`foldBatches` over `chunksOf 5`, the slices
reassembling to the input; 7 names give slice lengths `[5, 2]`); every name
in the input is processed (one settled per-function result each, the
batched aggregate being exactly their sum — so an error for one function
neither aborts its batch nor prevents later batches); and any per-function
failure is caught and settles as exactly one counted error. -/
theorem batched_reconciliation_fault_tolerant (ctx : Ctx) (names : List String) (st : Remote) :
    _processAwsFunctionsInBatches ctx names st
        = foldBatches ctx (chunksOf AWS_CONCURRENCY_BATCH_SIZE names) st
    ∧ (chunksOf AWS_CONCURRENCY_BATCH_SIZE names).flatten = names
    ∧ (names.length = 7 →
        (chunksOf AWS_CONCURRENCY_BATCH_SIZE names).map List.length = [5, 2])
    ∧ (runEach ctx names st).1.length = names.length
    ∧ (_processAwsFunctionsInBatches ctx names st).result.modifiedCount
        = ((runEach ctx names st).1.map (fun r => r.modifiedCount)).sum
    ∧ (_processAwsFunctionsInBatches ctx names st).result.errorCount
        = ((runEach ctx names st).1.map (fun r => r.errorCount)).sum
    ∧ ∀ (functionName : String) (st' : Remote) (msg : String),
        (_checkAndRemoveReservedConcurrency (_getFunctionName ctx functionName) st').result
            = Except.error msg →
        _shouldSkipFunction (_getFunctionName ctx functionName) = false →
        (_processAwsFunction ctx functionName st').result = ⟨0, 1⟩ := by
  obtain ⟨hm, he, _⟩ := processBatches_eq_runEach ctx names st
  exact ⟨processBatches_eq_foldBatches ctx names st, chunksOf_join names,
    chunksOf_seven names, runEach_length ctx names st, hm, he,
    fun functionName st' msg h hskip =>
      processAwsFunction_error_isolated ctx functionName st' msg h hskip⟩

/-- Witness for C2 at a concrete input: seven logical names, a remote state
in which the third function's configuration fetch fails; the hypothesis-free
parts apply directly and the 7-name hypothesis is discharged by `rfl`. -/
theorem batched_reconciliation_fault_tolerant_witness :
    (chunksOf AWS_CONCURRENCY_BATCH_SIZE ["f1", "f2", "f3", "f4", "f5", "f6", "f7"]).map
        List.length = [5, 2]
    ∧ (runEach ⟨"svc", "dev"⟩ ["f1", "f2", "f3", "f4", "f5", "f6", "f7"]
        [("svc-dev-f3", ⟨some 10, true, false⟩)]).1.length
      = (["f1", "f2", "f3", "f4", "f5", "f6", "f7"] : List String).length :=
  ⟨(batched_reconciliation_fault_tolerant ⟨"svc", "dev"⟩
      ["f1", "f2", "f3", "f4", "f5", "f6", "f7"]
      [("svc-dev-f3", ⟨some 10, true, false⟩)]).2.2.1 rfl,
    (batched_reconciliation_fault_tolerant ⟨"svc", "dev"⟩
      ["f1", "f2", "f3", "f4", "f5", "f6", "f7"]
      [("svc-dev-f3", ⟨some 10, true, false⟩)]).2.2.2.1⟩

/-- The spec's scenario: 7 names, the third one's remote fetch fails; the
final aggregate still covers all 7 functions (6 modified, 1 errored), so the
first batch was not aborted and the second batch still ran. -/
example :
    (_processAwsFunctionsInBatches ⟨"svc", "dev"⟩ ["f1", "f2", "f3", "f4", "f5", "f6", "f7"]
        [("svc-dev-f1", ⟨some 1, false, false⟩), ("svc-dev-f2", ⟨some 2, false, false⟩),
          ("svc-dev-f3", ⟨some 3, true, false⟩), ("svc-dev-f4", ⟨some 4, false, false⟩),
          ("svc-dev-f5", ⟨some 5, false, false⟩), ("svc-dev-f6", ⟨some 6, false, false⟩),
          ("svc-dev-f7", ⟨some 7, false, false⟩)]).result.modifiedCount = 6
    ∧ (_processAwsFunctionsInBatches ⟨"svc", "dev"⟩ ["f1", "f2", "f3", "f4", "f5", "f6", "f7"]
        [("svc-dev-f1", ⟨some 1, false, false⟩), ("svc-dev-f2", ⟨some 2, false, false⟩),
          ("svc-dev-f3", ⟨some 3, true, false⟩), ("svc-dev-f4", ⟨some 4, false, false⟩),
          ("svc-dev-f5", ⟨some 5, false, false⟩), ("svc-dev-f6", ⟨some 6, false, false⟩),
          ("svc-dev-f7", ⟨some 7, false, false⟩)]).result.errorCount = 1 := by
  obtain ⟨hm, he, _⟩ := processBatches_eq_runEach ⟨"svc", "dev"⟩
    ["f1", "f2", "f3", "f4", "f5", "f6", "f7"]
    [("svc-dev-f1", ⟨some 1, false, false⟩), ("svc-dev-f2", ⟨some 2, false, false⟩),
      ("svc-dev-f3", ⟨some 3, true, false⟩), ("svc-dev-f4", ⟨some 4, false, false⟩),
      ("svc-dev-f5", ⟨some 5, false, false⟩), ("svc-dev-f6", ⟨some 6, false, false⟩),
      ("svc-dev-f7", ⟨some 7, false, false⟩)]
  rw [hm, he]
  constructor <;> rfl

theorem runEach_mem_trichotomy (ctx : Ctx) (names : List String) (st : Remote) :
    ∀ r ∈ (runEach ctx names st).1, r = ⟨1, 0⟩ ∨ r = ⟨0, 1⟩ ∨ r = ⟨0, 0⟩ := by
  induction names generalizing st with
  | nil => intro r hr; simp [runEach] at hr
  | cons n rest ih =>
    intro r hr
    simp only [runEach, List.mem_cons] at hr
    rcases hr with h | h
    · subst h; exact processAwsFunction_trichotomy ctx n st
    · exact ih (_processAwsFunction ctx n st).remote r h

theorem partition_sum (rs : List ProcessingResult)
    (h : ∀ r ∈ rs, r = ⟨1, 0⟩ ∨ r = ⟨0, 1⟩ ∨ r = ⟨0, 0⟩) :
    (rs.map (fun r => r.modifiedCount)).sum + (rs.map (fun r => r.errorCount)).sum
      + rs.countP (fun r => r.modifiedCount == 0 && r.errorCount == 0) = rs.length := by
  induction rs with
  | nil => rfl
  | cons a rs ih =>
    have ht := ih (fun r hr => h r (List.mem_cons_of_mem a hr))
    rcases h a (List.mem_cons_self a rs) with h1 | h1 | h1 <;> subst h1 <;>
      simp [List.countP_cons] <;> omega

/-- C6: for every reconciliation run over `n` considered functions,
`modifiedCount + errorCount + skippedCount = n`, where `skippedCount` counts
the per-function outcomes that are neither modified nor errored; each
function settles as exactly one of the three categories. -/
theorem reconciliation_partition (ctx : Ctx) (names : List String) (st : Remote) :
    (_processAwsFunctionsInBatches ctx names st).result.modifiedCount
      + (_processAwsFunctionsInBatches ctx names st).result.errorCount
      + (runEach ctx names st).1.countP
          (fun r => r.modifiedCount == 0 && r.errorCount == 0) = names.length
    ∧ ∀ r ∈ (runEach ctx names st).1, r = ⟨1, 0⟩ ∨ r = ⟨0, 1⟩ ∨ r = ⟨0, 0⟩ := by
  obtain ⟨hm, he, _⟩ := processBatches_eq_runEach ctx names st
  refine ⟨?_, runEach_mem_trichotomy ctx names st⟩
  rw [hm, he, ← runEach_length ctx names st]
  exact partition_sum (runEach ctx names st).1 (runEach_mem_trichotomy ctx names st)

theorem checkAndRemove_cases (awsName : String) (st : Remote) :
    ((∃ msg, (_checkAndRemoveReservedConcurrency awsName st).result = Except.error msg)
        ∧ (_checkAndRemoveReservedConcurrency awsName st).remote = st
        ∧ cleanEntry st awsName)
    ∨ ((_checkAndRemoveReservedConcurrency awsName st).result = Except.ok false
        ∧ (_checkAndRemoveReservedConcurrency awsName st).remote = st
        ∧ cleanEntry st awsName)
    ∨ ((_checkAndRemoveReservedConcurrency awsName st).result = Except.ok true
        ∧ (_checkAndRemoveReservedConcurrency awsName st).remote
            = deleteConcurrency st awsName
        ∧ ∃ fn, lookupFn st awsName = some fn ∧ fn.fetchFails = false
            ∧ fn.deleteFails = false ∧ fn.reservedConcurrentExecutions ≠ none) := by
  cases hlk : lookupFn st awsName with
  | none =>
    refine Or.inl ⟨⟨"Function not found: " ++ awsName, ?_⟩, ?_, ?_⟩
    · simp [_checkAndRemoveReservedConcurrency, hlk]
    · simp [_checkAndRemoveReservedConcurrency, hlk]
    · intro fn h
      rw [hlk] at h
      cases h
  | some fn =>
    by_cases hf : fn.fetchFails = true
    · refine Or.inl ⟨⟨"getFunctionConfiguration failed for: " ++ awsName, ?_⟩, ?_, ?_⟩
      · simp [_checkAndRemoveReservedConcurrency, hlk, hf]
      · simp [_checkAndRemoveReservedConcurrency, hlk, hf]
      · intro fn' h hf'
        rw [hlk] at h
        cases h
        rw [hf] at hf'
        cases hf'
    · cases hr : fn.reservedConcurrentExecutions with
      | none =>
        refine Or.inr (Or.inl ⟨?_, ?_, ?_⟩)
        · simp [_checkAndRemoveReservedConcurrency, hlk, hf, hr]
        · simp [_checkAndRemoveReservedConcurrency, hlk, hf, hr]
        · intro fn' h _ _
          rw [hlk] at h
          cases h
          exact hr
      | some v =>
        by_cases hd : fn.deleteFails = true
        · refine Or.inl ⟨⟨"deleteFunctionConcurrency failed for: " ++ awsName, ?_⟩, ?_, ?_⟩
          · simp [_checkAndRemoveReservedConcurrency, hlk, hf, hr, hd]
          · simp [_checkAndRemoveReservedConcurrency, hlk, hf, hr, hd]
          · intro fn' h _ hd'
            rw [hlk] at h
            cases h
            rw [hd] at hd'
            cases hd'
        · refine Or.inr (Or.inr ⟨?_, ?_,
            fn, rfl, Bool.not_eq_true _ ▸ hf, Bool.not_eq_true _ ▸ hd, by simp [hr]⟩)
          · simp [_checkAndRemoveReservedConcurrency, hlk, hf, hr, hd]
          · simp [_checkAndRemoveReservedConcurrency, hlk, hf, hr, hd]

theorem lookupFn_deleteConcurrency (st : Remote) (n m : String) :
    lookupFn (deleteConcurrency st n) m
      = if m = n then
          (lookupFn st m).map (fun fn => { fn with reservedConcurrentExecutions := none })
        else lookupFn st m := by
  induction st with
  | nil => simp [deleteConcurrency, lookupFn]
  | cons e rest ih =>
    obtain ⟨k, v⟩ := e
    by_cases hkn : k = n
    · subst hkn
      by_cases hkm : k = m
      · subst hkm
        simp [deleteConcurrency, lookupFn]
      · simp [deleteConcurrency, lookupFn, hkm, ih]
    · by_cases hkm : k = m
      · subst hkm
        simp [deleteConcurrency, lookupFn, hkn]
      · simp [deleteConcurrency, lookupFn, hkn, hkm, ih]

theorem cleanEntry_deleteConcurrency_self (st : Remote) (n : String) :
    cleanEntry (deleteConcurrency st n) n := by
  intro fn h _ _
  rw [lookupFn_deleteConcurrency, if_pos rfl] at h
  obtain ⟨fn₀, _, rfl⟩ := Option.map_eq_some'.mp h
  rfl

theorem cleanEntry_deleteConcurrency (st : Remote) (n m : String)
    (h : cleanEntry st m) : cleanEntry (deleteConcurrency st n) m := by
  intro fn hlk hf hd
  rw [lookupFn_deleteConcurrency] at hlk
  by_cases hmn : m = n
  · rw [if_pos hmn] at hlk
    obtain ⟨fn₀, _, rfl⟩ := Option.map_eq_some'.mp hlk
    rfl
  · rw [if_neg hmn] at hlk
    exact h fn hlk hf hd

theorem processAwsFunction_remote_eq (ctx : Ctx) (functionName : String) (st : Remote)
    (hskip : ¬ _shouldSkipFunction (_getFunctionName ctx functionName) = true) :
    (_processAwsFunction ctx functionName st).remote
      = (_checkAndRemoveReservedConcurrency (_getFunctionName ctx functionName) st).remote := by
  rcases hres : (_checkAndRemoveReservedConcurrency (_getFunctionName ctx functionName) st).result
    with msg | b <;> simp [_processAwsFunction, hskip, hres]

/-- Processing a clean name modifies nothing and leaves the remote state
unchanged. -/
theorem clean_step_noop (ctx : Ctx) (functionName : String) (st : Remote)
    (h : cleanFor ctx st functionName) :
    (_processAwsFunction ctx functionName st).result.modifiedCount = 0
    ∧ (_processAwsFunction ctx functionName st).remote = st := by
  by_cases hskip : _shouldSkipFunction (_getFunctionName ctx functionName) = true
  · constructor <;> simp [_processAwsFunction, hskip]
  · have hclean : cleanEntry st (_getFunctionName ctx functionName) := by
      rcases h with h | h
      · exact absurd h hskip
      · exact h
    rcases checkAndRemove_cases (_getFunctionName ctx functionName) st with
      ⟨⟨msg, hres⟩, hrem, _⟩ | ⟨hres, hrem, _⟩ | ⟨hres, hrem, fn, hlk, hf, hd, hr⟩
    · constructor <;> simp [_processAwsFunction, hskip, hres, hrem]
    · constructor <;> simp [_processAwsFunction, hskip, hres, hrem]
    · exact absurd (hclean fn hlk hf hd) hr

/-- After a per-function step, the processed name is clean. -/
theorem step_establishes_clean (ctx : Ctx) (functionName : String) (st : Remote) :
    cleanFor ctx (_processAwsFunction ctx functionName st).remote functionName := by
  by_cases hskip : _shouldSkipFunction (_getFunctionName ctx functionName) = true
  · exact Or.inl hskip
  · right
    rw [processAwsFunction_remote_eq ctx functionName st hskip]
    rcases checkAndRemove_cases (_getFunctionName ctx functionName) st with
      ⟨_, hrem, hcl⟩ | ⟨_, hrem, hcl⟩ | ⟨_, hrem, _⟩
    · rw [hrem]; exact hcl
    · rw [hrem]; exact hcl
    · rw [hrem]; exact cleanEntry_deleteConcurrency_self st _

/-- A per-function step preserves cleanliness of every name. -/
theorem step_preserves_clean (ctx : Ctx) (processedName otherName : String) (st : Remote)
    (h : cleanFor ctx st otherName) :
    cleanFor ctx (_processAwsFunction ctx processedName st).remote otherName := by
  rcases h with h | h
  · exact Or.inl h
  · by_cases hskip : _shouldSkipFunction (_getFunctionName ctx processedName) = true
    · have : (_processAwsFunction ctx processedName st).remote = st := by
        simp [_processAwsFunction, hskip]
      rw [this]
      exact Or.inr h
    · right
      rw [processAwsFunction_remote_eq ctx processedName st hskip]
      rcases checkAndRemove_cases (_getFunctionName ctx processedName) st with
        ⟨_, hrem, _⟩ | ⟨_, hrem, _⟩ | ⟨_, hrem, _⟩
      · rw [hrem]; exact h
      · rw [hrem]; exact h
      · rw [hrem]; exact cleanEntry_deleteConcurrency st _ _ h

theorem runEach_preserves_clean (ctx : Ctx) (names : List String) (st : Remote)
    (m : String) (h : cleanFor ctx st m) :
    cleanFor ctx (runEach ctx names st).2 m := by
  induction names generalizing st with
  | nil => exact h
  | cons k rest ih =>
    have h₁ := step_preserves_clean ctx k m st h
    have h₂ := ih (_processAwsFunction ctx k st).remote h₁
    simpa [runEach] using h₂

theorem runEach_establishes_clean (ctx : Ctx) (names : List String) (st : Remote) :
    ∀ n ∈ names, cleanFor ctx (runEach ctx names st).2 n := by
  induction names generalizing st with
  | nil => intro n hn; cases hn
  | cons k rest ih =>
    intro n hn
    rcases List.mem_cons.mp hn with rfl | h
    · have h₀ := step_establishes_clean ctx n st
      have h₁ := runEach_preserves_clean ctx rest (_processAwsFunction ctx n st).remote n h₀
      simpa [runEach] using h₁
    · have h₁ := ih (_processAwsFunction ctx k st).remote n h
      simpa [runEach] using h₁

theorem runEach_clean_noop (ctx : Ctx) (names : List String) (st : Remote)
    (h : ∀ n ∈ names, cleanFor ctx st n) :
    ((runEach ctx names st).1.map (fun r => r.modifiedCount)).sum = 0
    ∧ (runEach ctx names st).2 = st := by
  induction names generalizing st with
  | nil => exact ⟨rfl, rfl⟩
  | cons k rest ih =>
    obtain ⟨hm0, hst⟩ := clean_step_noop ctx k st (h k (List.mem_cons_self k rest))
    have ht := ih st (fun n hn => h n (List.mem_cons_of_mem k hn))
    constructor
    · simp [runEach, hst, hm0, ht.1]
    · simp [runEach, hst, ht.2]

/-- C3: bulk reconciliation is idempotent — re-running it immediately on the
remote state the first run produced reports `modifiedCount = 0` (nothing in
the model changes the remote state between the two runs); moreover the
delete call is issued only when the fetched configuration carries reserved
concurrency, and after a successful removal the entry's reserved concurrency
is absent. -/
theorem reconciliation_idempotent (ctx : Ctx) (names : List String) (st : Remote) :
    (_processAwsFunctionsInBatches ctx names
        (_processAwsFunctionsInBatches ctx names st).remote).result.modifiedCount = 0
    ∧ (∀ (awsName : String) (st' : Remote),
        ApiCall.deleteFunctionConcurrency awsName
            ∈ (_checkAndRemoveReservedConcurrency awsName st').calls →
        ∃ fn, lookupFn st' awsName = some fn ∧ fn.reservedConcurrentExecutions ≠ none)
    ∧ (∀ (awsName : String) (st' : Remote),
        (_checkAndRemoveReservedConcurrency awsName st').result = Except.ok true →
        ∀ fn, lookupFn (_checkAndRemoveReservedConcurrency awsName st').remote awsName
            = some fn →
          fn.reservedConcurrentExecutions = none) := by
  refine ⟨?_, ?_, ?_⟩
  · obtain ⟨_, _, hs₁⟩ := processBatches_eq_runEach ctx names st
    obtain ⟨hm₂, _, _⟩ := processBatches_eq_runEach ctx names
      (_processAwsFunctionsInBatches ctx names st).remote
    rw [hm₂, hs₁]
    exact (runEach_clean_noop ctx names (runEach ctx names st).2
      (runEach_establishes_clean ctx names st)).1
  · intro awsName st' hmem
    cases hlk : lookupFn st' awsName with
    | none => simp [_checkAndRemoveReservedConcurrency, hlk] at hmem
    | some fn =>
      by_cases hf : fn.fetchFails = true
      · simp [_checkAndRemoveReservedConcurrency, hlk, hf] at hmem
      · cases hr : fn.reservedConcurrentExecutions with
        | none => simp [_checkAndRemoveReservedConcurrency, hlk, hf, hr] at hmem
        | some v => exact ⟨fn, rfl, by simp [hr]⟩
  · intro awsName st' hres fn hlk
    rcases checkAndRemove_cases awsName st' with
      ⟨⟨msg, h⟩, _, _⟩ | ⟨h, _, _⟩ | ⟨_, hrem, _⟩
    · rw [h] at hres; cases hres
    · rw [h] at hres; cases hres
    · rw [hrem, lookupFn_deleteConcurrency, if_pos rfl] at hlk
      obtain ⟨fn₀, _, rfl⟩ := Option.map_eq_some'.mp hlk
      rfl

/-- Witness for C3 at a concrete input: one function with reserved
concurrency present; re-running after the first run modifies nothing, the
recorded delete call implies reserved concurrency was present, and after the
successful removal the entry is clean. -/
theorem reconciliation_idempotent_witness :
    (_processAwsFunctionsInBatches ⟨"svc", "dev"⟩ ["a"]
        (_processAwsFunctionsInBatches ⟨"svc", "dev"⟩ ["a"]
          [("svc-dev-a", ⟨some 3, false, false⟩)]).remote).result.modifiedCount = 0
    ∧ (∃ fn, lookupFn [("svc-dev-a", ⟨some 3, false, false⟩)] "svc-dev-a" = some fn
        ∧ fn.reservedConcurrentExecutions ≠ none)
    ∧ (∀ fn, lookupFn (_checkAndRemoveReservedConcurrency "svc-dev-a"
          [("svc-dev-a", ⟨some 3, false, false⟩)]).remote ("svc-dev-a") = some fn →
        fn.reservedConcurrentExecutions = none) :=
  ⟨(reconciliation_idempotent ⟨"svc", "dev"⟩ ["a"]
      [("svc-dev-a", ⟨some 3, false, false⟩)]).1,
    (reconciliation_idempotent ⟨"svc", "dev"⟩ ["a"]
      [("svc-dev-a", ⟨some 3, false, false⟩)]).2.1 "svc-dev-a"
      [("svc-dev-a", ⟨some 3, false, false⟩)] (by decide),
    (reconciliation_idempotent ⟨"svc", "dev"⟩ ["a"]
      [("svc-dev-a", ⟨some 3, false, false⟩)]).2.2 "svc-dev-a"
      [("svc-dev-a", ⟨some 3, false, false⟩)] rfl⟩

/-- C5: a function whose resolved remote identifier contains the warm-up
marker is skipped: no fetch, no delete (empty call trace), counted as
neither modified nor errored, remote state untouched, only the skip logged —
regardless of the function's actual remote concurrency settings. -/
theorem warmup_function_skipped (ctx : Ctx) (functionName : String) (st : Remote)
    (h : strContains (_getFunctionName ctx functionName) WARMUP_FUNCTION_IDENTIFIER = true) :
    (_processAwsFunction ctx functionName st).result = ⟨0, 0⟩
    ∧ (_processAwsFunction ctx functionName st).calls = []
    ∧ (_processAwsFunction ctx functionName st).remote = st
    ∧ (_processAwsFunction ctx functionName st).logs
        = [logInfo ("Skipping warmUp function: " ++ _getFunctionName ctx functionName)] := by
  have hskip : _shouldSkipFunction (_getFunctionName ctx functionName) = true := h
  refine ⟨?_, ?_, ?_, ?_⟩ <;> simp [_processAwsFunction, hskip]

/-- Witness for C5: the function `warmUpPlugin` resolves to
`svc-dev-warmUpPlugin`, which contains `warmUp`; even though its remote entry
carries reserved concurrency, nothing is fetched or deleted. -/
theorem warmup_function_skipped_witness :
    (_processAwsFunction ⟨"svc", "dev"⟩ "warmUpPlugin"
        [("svc-dev-warmUpPlugin", ⟨some 5, false, false⟩)]).result = ⟨0, 0⟩
    ∧ (_processAwsFunction ⟨"svc", "dev"⟩ "warmUpPlugin"
        [("svc-dev-warmUpPlugin", ⟨some 5, false, false⟩)]).calls = []
    ∧ (_processAwsFunction ⟨"svc", "dev"⟩ "warmUpPlugin"
        [("svc-dev-warmUpPlugin", ⟨some 5, false, false⟩)]).remote
          = [("svc-dev-warmUpPlugin", ⟨some 5, false, false⟩)]
    ∧ (_processAwsFunction ⟨"svc", "dev"⟩ "warmUpPlugin"
        [("svc-dev-warmUpPlugin", ⟨some 5, false, false⟩)]).logs
          = [logInfo ("Skipping warmUp function: "
              ++ _getFunctionName ⟨"svc", "dev"⟩ "warmUpPlugin")] :=
  warmup_function_skipped ⟨"svc", "dev"⟩ "warmUpPlugin"
    [("svc-dev-warmUpPlugin", ⟨some 5, false, false⟩)] (by decide)

theorem strContains_append_right (s t pat : String)
    (h : strContains s pat = true) : strContains (s ++ t) pat = true := by
  rw [ strContains_iff_infix] at h ⊢
  rw [String.data_append]
  exact h.trans (s.data.prefix_append t.data).isInfix

theorem strContains_append_left (s t pat : String)
    (h : strContains t pat = true) : strContains (s ++ t) pat = true := by
  rw [ strContains_iff_infix] at h ⊢
  rw [String.data_append]
  exact h.trans (List.suffix_append s.data t.data).isInfix

/-- C10 supporting fact: the warm-up test is applied to the fully resolved
identifier, so a marker anywhere in the service identifier or the stage makes
every resolved name test positive. -/
theorem shouldSkip_of_service_or_stage (ctx : Ctx) (functionName : String)
    (h : strContains ctx.service WARMUP_FUNCTION_IDENTIFIER = true
      ∨ strContains ctx.stage WARMUP_FUNCTION_IDENTIFIER = true) :
    _shouldSkipFunction (_getFunctionName ctx functionName) = true := by
  unfold _shouldSkipFunction _getFunctionName
  rcases h with h | h
  · exact strContains_append_right _ _ _ (strContains_append_right _ _ _
      (strContains_append_right _ _ _ (strContains_append_right _ _ _ h)))
  · exact strContains_append_right _ _ _ (strContains_append_right _ _ _
      (strContains_append_left _ _ _ h))

theorem processBatch_all_skip (ctx : Ctx) (names : List String) (st : Remote)
    (h : ∀ n, _shouldSkipFunction (_getFunctionName ctx n) = true) :
    (_processBatch ctx names st).result = ⟨0, 0⟩
    ∧ (_processBatch ctx names st).calls = []
    ∧ (_processBatch ctx names st).remote = st := by
  induction names generalizing st with
  | nil => exact ⟨rfl, rfl, rfl⟩
  | cons n rest ih =>
    have hstep : _processAwsFunction ctx n st
        = { result := ⟨0, 0⟩, remote := st, calls := [],
            logs := [logInfo ("Skipping warmUp function: " ++ _getFunctionName ctx n)] } := by
      simp [_processAwsFunction, h n]
    obtain ⟨ihr, ihc, ihs⟩ := ih st
    refine ⟨?_, ?_, ?_⟩ <;> simp [_processBatch, hstep, ihr, ihc, ihs]

theorem processBatches_all_skip (ctx : Ctx) (names : List String) (st : Remote)
    (h : ∀ n, _shouldSkipFunction (_getFunctionName ctx n) = true) :
    (_processAwsFunctionsInBatches ctx names st).result = ⟨0, 0⟩
    ∧ (_processAwsFunctionsInBatches ctx names st).calls = []
    ∧ (_processAwsFunctionsInBatches ctx names st).remote = st := by
  induction names, st using _processAwsFunctionsInBatches.induct ctx with
  | case1 st => refine ⟨?_, ?_, ?_⟩ <;> simp [_processAwsFunctionsInBatches]
  | case2 st x xs b ih =>
    unfold b at ih
    obtain ⟨br, bc, bs⟩ :=
      processBatch_all_skip ctx ((x :: xs).take AWS_CONCURRENCY_BATCH_SIZE) st h
    rw [bs] at ih
    obtain ⟨ihr, ihc, ihs⟩ := ih
    refine ⟨?_, ?_, ?_⟩ <;>
      simp only [_processAwsFunctionsInBatches] <;>
      simp [br, bc, bs, ihr, ihc, ihs]

/-- C10: the warm-up exclusion tests the fully resolved identifier
`service-stage-logicalName`: if the service identifier or the stage contains
the marker, bulk reconciliation skips every function — zero fetches, zero
deletes, zero modifications and zero errors for the whole run, remote state
untouched — whatever the logical names are. -/
theorem warmup_marker_in_service_or_stage_skips_run (ctx : Ctx) (names : List String)
    (st : Remote)
    (h : strContains ctx.service WARMUP_FUNCTION_IDENTIFIER = true
      ∨ strContains ctx.stage WARMUP_FUNCTION_IDENTIFIER = true) :
    (_processAwsFunctionsInBatches ctx names st).result = ⟨0, 0⟩
    ∧ (_processAwsFunctionsInBatches ctx names st).calls = []
    ∧ (_processAwsFunctionsInBatches ctx names st).remote = st :=
  processBatches_all_skip ctx names st
    (fun n => shouldSkip_of_service_or_stage ctx n h)

/-- Witness for C10: the stage `warmUpTest` contains the marker, so a
function whose logical name is marker-free is still never fetched even
though its remote entry carries reserved concurrency. -/
theorem warmup_marker_in_service_or_stage_skips_run_witness :
    (_processAwsFunctionsInBatches ⟨"svc", "warmUpTest"⟩ ["plain"]
        [("svc-warmUpTest-plain", ⟨some 9, false, false⟩)]).result = ⟨0, 0⟩
    ∧ (_processAwsFunctionsInBatches ⟨"svc", "warmUpTest"⟩ ["plain"]
        [("svc-warmUpTest-plain", ⟨some 9, false, false⟩)]).calls = []
    ∧ (_processAwsFunctionsInBatches ⟨"svc", "warmUpTest"⟩ ["plain"]
        [("svc-warmUpTest-plain", ⟨some 9, false, false⟩)]).remote
          = [("svc-warmUpTest-plain", ⟨some 9, false, false⟩)] :=
  warmup_marker_in_service_or_stage_skips_run ⟨"svc", "warmUpTest"⟩ ["plain"]
    [("svc-warmUpTest-plain", ⟨some 9, false, false⟩)] (Or.inr (by decide))

/-- C7: single-function reconciliation with no target function name (option
absent or the empty string) performs zero remote API calls, logs exactly one
error line, leaves the remote state untouched, and the hook resolves
normally. -/
theorem single_function_no_name (ctx : Ctx) (options : ServerlessOptions) (st : Remote)
    (h : options.function = none ∨ options.function = some ("")) :
    (_removeReservedConcurrencyFromAwsForFunction ctx options st).calls = []
    ∧ ((_removeReservedConcurrencyFromAwsForFunction ctx options st).logs.countP
        (fun e => e.level == LogLevel.error)) = 1
    ∧ (_removeReservedConcurrencyFromAwsForFunction ctx options st).result = Except.ok ()
    ∧ (_removeReservedConcurrencyFromAwsForFunction ctx options st).remote = st := by
  rcases h with h | h <;>
    refine ⟨?_, ?_, ?_, ?_⟩ <;>
    simp [_removeReservedConcurrencyFromAwsForFunction, _validateFunctionName, h,
      measureExecutionTimeLogs, logInfo, logError, List.countP_cons]

/-- Witness for C7: no function name supplied. -/
theorem single_function_no_name_witness :
    (_removeReservedConcurrencyFromAwsForFunction ⟨"svc", "dev"⟩ ⟨none⟩
        [("svc-dev-a", ⟨some 3, false, false⟩)]).calls = []
    ∧ ((_removeReservedConcurrencyFromAwsForFunction ⟨"svc", "dev"⟩ ⟨none⟩
        [("svc-dev-a", ⟨some 3, false, false⟩)]).logs.countP
          (fun e => e.level == LogLevel.error)) = 1
    ∧ (_removeReservedConcurrencyFromAwsForFunction ⟨"svc", "dev"⟩ ⟨none⟩
        [("svc-dev-a", ⟨some 3, false, false⟩)]).result = Except.ok ()
    ∧ (_removeReservedConcurrencyFromAwsForFunction ⟨"svc", "dev"⟩ ⟨none⟩
        [("svc-dev-a", ⟨some 3, false, false⟩)]).remote
          = [("svc-dev-a", ⟨some 3, false, false⟩)] :=
  single_function_no_name ⟨"svc", "dev"⟩ ⟨none⟩
    [("svc-dev-a", ⟨some 3, false, false⟩)] (Or.inl rfl)

/-- C8: for a stage classified as not development-like, construction
registers zero lifecycle operations — the hooks mapping is empty, so no
extension point is bound to descriptor mutation or remote reconciliation —
in both plugin implementations. -/
theorem non_development_stage_registers_nothing (stage : String)
    (h : _isDevelopmentStage stage = false) :
    constructorHooks stage = []
    ∧ (∀ (hookName : String) (action : HookAction),
        (hookName, action) ∉ constructorHooks stage)
    ∧ indexTs_constructorHooks stage = [] := by
  have h' : indexTs_isDevelopmentStage stage = false :=
    (isDevelopmentStage_agree stage).symm.trans h
  refine ⟨?_, ?_, ?_⟩
  · simp [constructorHooks, h]
  · intro hookName action
    simp [constructorHooks, h]
  · simp [indexTs_constructorHooks, h']

/-- Witness for C8: the stage `production` is not development-like and
registers nothing. -/
theorem non_development_stage_registers_nothing_witness :
    constructorHooks ("production") = []
    ∧ (∀ (hookName : String) (action : HookAction),
        (hookName, action) ∉ constructorHooks ("production"))
    ∧ indexTs_constructorHooks ("production") = [] :=
  non_development_stage_registers_nothing ("production") (by decide)

/-- Witness for C6 at a concrete input: two functions, one modified and one
errored, partitioning 2 = 1 + 1 + 0. -/
theorem reconciliation_partition_witness :
    (_processAwsFunctionsInBatches ⟨"svc", "dev"⟩ ["a", "b"]
        [("svc-dev-a", ⟨some 1, false, false⟩)]).result.modifiedCount
      + (_processAwsFunctionsInBatches ⟨"svc", "dev"⟩ ["a", "b"]
        [("svc-dev-a", ⟨some 1, false, false⟩)]).result.errorCount
      + (runEach ⟨"svc", "dev"⟩ ["a", "b"]
          [("svc-dev-a", ⟨some 1, false, false⟩)]).1.countP
          (fun r => r.modifiedCount == 0 && r.errorCount == 0)
      = (["a", "b"] : List String).length :=
  (reconciliation_partition ⟨"svc", "dev"⟩ ["a", "b"]
    [("svc-dev-a", ⟨some 1, false, false⟩)]).1
